import Mathlib

/-!
Shallow embedding of the pcm-extract decoder (src/src/main.rs): the
per-byte bit-representation decoding, the DPCM-family predictive
reconstruction step, the decode loop over the raw stream, the REPL
configuration setters, and the playback callback index/completion logic.
Machine integers are modelled as Int with explicit wraparound
(modulo 2 to the 16) and saturation at the signed 16-bit bounds; bytes are
Fin 256.
-/

namespace PcmExtract

/-- The bit-representation enum from main.rs. -/
inductive Representation where
  | SignedMagnitude
  | OnesComplement
  | TwosComplement
  | ExcessK
  | Custom
  deriving DecidableEq

/-- The compression (prediction) enum from main.rs. -/
inductive Compression where
  | DPCM0
  | DPCM1
  | DPCM2
  | DPCM3
  | DPCMROQ
  | DPCMSDX
  deriving DecidableEq

/-- The Opts struct from main.rs: addressing window, transform parameters,
representation and compression selection. -/
structure Opts where
  from_ : Nat
  to_ : Nat
  step : Nat
  skip : Nat
  k : Fin 256
  flip : Fin 256
  mirror : Fin 256
  sign : Fin 256
  representation : Representation
  compression : Compression
  deriving DecidableEq

/-- The Default impl for Opts in main.rs. -/
def Opts.default : Opts :=
  { from_ := 0, to_ := 8192, step := 1, skip := 0, k := 0, flip := 0,
    mirror := 0, sign := 1, representation := Representation.TwosComplement,
    compression := Compression.DPCM0 }

/-- Wrapping (two-complement, modulo 2 to the 16) reduction of an integer
into the signed 16-bit range: models Rust i16 overflowing arithmetic. -/
def wrap16 (x : Int) : Int := (x + 32768) % 65536 - 32768

/-- Clamp an integer to the signed 16-bit range: models Rust i16
saturating arithmetic. -/
def sat16 (x : Int) : Int :=
  if x < -32768 then -32768 else if 32767 < x then 32767 else x

/-- i16 saturating_add. -/
def satAdd (a b : Int) : Int := sat16 (a + b)

/-- i16 saturating_sub. -/
def satSub (a b : Int) : Int := sat16 (a - b)

/-- i16 saturating_mul. -/
def satMul (a b : Int) : Int := sat16 (a * b)

/-- Reinterpret a byte value as a signed 8-bit integer
(the Rust cast chain of "as i8 as i16"). -/
def toI8 (n : Nat) : Int := if n < 128 then (n : Int) else (n : Int) - 256

/-- The value of the mutable byte variable d8 of main.rs after the match
on opt.representation: the Custom arm mutates d8 in place with the
mirror fold (line 322) and the flip fold (line 325); every other arm
leaves it untouched.  The compression branches later read this possibly
folded byte. -/
def foldByte (opt : Opts) (d8 : Fin 256) : Fin 256 :=
  match opt.representation with
  | Representation.Custom =>
    let f := opt.flip.val
    let m := opt.mirror.val
    let d1 : Fin 256 :=
      if m < d8.val then ⟨(m + (d8.val + 256 - m) % 256) % 256, Nat.mod_lt _ (by omega)⟩
      else d8
    if d1.val < f then ⟨(f + 256 - d1.val) % 256, Nat.mod_lt _ (by omega)⟩
    else d1
  | _ => d8

/-- The per-byte representation decoding from the match on
opt.representation in main.rs (lines 317-356). -/
def decodeOne (opt : Opts) (d8 : Fin 256) : Int :=
  match opt.representation with
  | Representation.Custom =>
    wrap16 (toI8 (foldByte opt d8).val - (opt.k.val : Int))
  | Representation.OnesComplement =>
    if d8.val < 128 then (d8.val : Int) else -(((d8.val ^^^ 255 : Nat)) : Int)
  | Representation.TwosComplement => toI8 d8.val
  | Representation.SignedMagnitude =>
    if opt.sign.val = 0 then
      if d8.val &&& 1 = 0 then (((d8.val &&& 254) >>> 1 : Nat) : Int)
      else -((((d8.val &&& 254) >>> 1 : Nat)) : Int)
    else
      if d8.val >>> 7 = 0 then ((d8.val &&& 127 : Nat) : Int)
      else -(((d8.val &&& 127 : Nat)) : Int)
  | Representation.ExcessK => wrap16 ((d8.val : Int) - (opt.k.val : Int))

/-- One reconstruction step: the match on opt.compression in main.rs
(lines 357-408).  hist is the list of previously emitted samples,
most recent first (so hist.headD 0 is out[out.len() - 1] defaulted to 0).
The DPCM1, DPCMROQ and DPCMSDX branches read the mutable byte d8 after
the representation match, so they see the folded byte under Custom. -/
def reconStep (opt : Opts) (d8 : Fin 256) (hist : List Int) : Int :=
  let d := decodeOne opt d8
  let e := foldByte opt d8
  match opt.compression with
  | Compression.DPCM0 => satMul d 256
  | Compression.DPCM1 =>
    let n1 := hist.headD 0
    if e.val < 128 then satAdd n1 ((e.val : Nat) : Int)
    else satSub n1 (((e.val - 128 : Nat)) : Int)
  | Compression.DPCM2 =>
    let n1 := hist.headD 0
    let n2 := (hist.drop 1).headD 0
    satAdd (satSub (satMul n1 2) n2) d
  | Compression.DPCM3 =>
    let n1 := hist.headD 0
    let n2 := (hist.drop 1).headD 0
    let n3 := (hist.drop 2).headD 0
    satAdd (satAdd (satSub (satMul n1 3) (satMul n2 3)) n3) d
  | Compression.DPCMROQ =>
    let n1 := hist.headD 0
    if e.val < 128 then satAdd n1 (wrap16 ((e.val : Int) * (e.val : Int)))
    else satSub n1 (wrap16 (((e.val - 128 : Nat) : Int) * ((e.val - 128 : Nat) : Int)))
  | Compression.DPCMSDX =>
    let n : Int := (e.val : Int)
    let n1 := if e.val &&& 1 = 0 then 0 else hist.headD 0
    let sq := wrap16 (wrap16 (n * n) * 2)
    if n < 0 then satAdd n1 sq else satSub n1 sq

/-- The DPCMSDX step as the spec describes it, with every multiplication
saturating instead of wrapping; used only to compare against the DPCMSDX
branch of reconStep. -/
def reconStepDpcmsdxSaturating (d8 : Fin 256) (hist : List Int) : Int :=
  let n : Int := (d8.val : Int)
  let n1 := if d8.val &&& 1 = 0 then 0 else hist.headD 0
  let sq := satMul (satMul n n) 2
  if n < 0 then satAdd n1 sq else satSub n1 sq

/-- The inner decode loop of main.rs (lines 315-416): read input[ix],
apply the representation decode and the compression step, push the
sample, advance ix by opt.step, stop once ix reaches the end.  Each
emitted pair records the raw-stream index that was read and the sample.
The fuel argument bounds the number of iterations (the source loop
terminates exactly when opt.step is at least 1); acc holds the pairs
emitted so far, most recent first. -/
def reconLoop (input : List (Fin 256)) (opt : Opts) :
    Nat → Nat → List (Nat × Int) → List (Nat × Int)
  | 0, _, acc => acc.reverse
  | Nat.succ fuel, ix, acc =>
    let d8 := input.getD ix 0
    let s := reconStep opt d8 (acc.map Prod.snd)
    let acc2 := (ix, s) :: acc
    if input.length ≤ ix + opt.step then acc2.reverse
    else reconLoop input opt fuel (ix + opt.step) acc2

/-- A full decode pass: start at opt.skip, as in main.rs line 313.
Returns the (index, sample) pairs in emission order. -/
def decode (input : List (Fin 256)) (opt : Opts) : List (Nat × Int) :=
  reconLoop input opt input.length opt.skip []

/-- The playback window clamp of main.rs lines 441-442: both endpoints
are clamped to the decoded buffer length. -/
def clampWin (len a b : Nat) : Nat × Nat := (min a len, min b len)

/-- One frame of the audio output callback (main.rs lines 450-465).
State is (frames, done).  Returns the buffer index read this frame (if
any), the number of completion signals emitted this frame, and the next
state.  The frame counter divided by 2 is the fixed up-sampling ratio of
this source. -/
def cbStep (lo hi : Nat) (st : Nat × Bool) : Option Nat × Nat × Nat × Bool :=
  let ix := lo + st.1 / 2
  if ix < hi then (some ix, 0, st.1 + 1, st.2)
  else if st.2 = false then (none, 1, st.1 + 1, true)
  else (none, 0, st.1 + 1, st.2)

/-- Run the callback for n frames from the initial state (frames 0,
done false), collecting the buffer indices read and the total number of
completion signals, together with the final state. -/
def cbRun (lo hi : Nat) : Nat → List Nat × Nat × Nat × Bool
  | 0 => ([], 0, 0, false)
  | Nat.succ n =>
    let prev := cbRun lo hi n
    let out := cbStep lo hi (prev.2.2.1, prev.2.2.2)
    (prev.1 ++ out.1.toList, prev.2.1 + out.2.1, out.2.2.1, out.2.2.2)

/-- Decimal natural-number parsing as Rust str::parse does for unsigned
integers: an optional leading plus sign, then one or more ASCII digits. -/
def parseNatStr (s : String) : Option Nat :=
  let cs := s.data
  let ds := match cs with
    | c :: rest => if c.toNat = 43 then rest else cs
    | [] => []
  if ds ≠ [] ∧ ds.all (fun c => c.isDigit)
  then some (ds.foldl (fun a c => a * 10 + (c.toNat - 48)) 0)
  else none

/-- Rust str::parse for u8: decimal parse plus range check. -/
def parseU8 (s : String) : Option (Fin 256) :=
  match parseNatStr s with
  | some v => if h : v < 256 then some ⟨v, h⟩ else none
  | none => none

/-- Rust str::parse for usize (64-bit): decimal parse plus range check. -/
def parseUsize (s : String) : Option Nat :=
  match parseNatStr s with
  | some v => if v < 18446744073709551616 then some v else none
  | none => none

/-- The FromStr impl derived for Representation (kebab-case display). -/
def parseRepresentation (s : String) : Option Representation :=
  if s = "signed-magnitude" then some Representation.SignedMagnitude
  else if s = "ones-complement" then some Representation.OnesComplement
  else if s = "twos-complement" then some Representation.TwosComplement
  else if s = "excess-k" then some Representation.ExcessK
  else if s = "custom" then some Representation.Custom
  else none

/-- The FromStr impl derived for Compression (lowercase display). -/
def parseCompression (s : String) : Option Compression :=
  if s = "dpcm0" then some Compression.DPCM0
  else if s = "dpcm1" then some Compression.DPCM1
  else if s = "dpcm2" then some Compression.DPCM2
  else if s = "dpcm3" then some Compression.DPCM3
  else if s = "dpcmroq" then some Compression.DPCMROQ
  else if s = "dpcmsdx" then some Compression.DPCMSDX
  else none

/-- The argument-taking configuration setters registered on the REPL in
main.rs (lines 104-309). -/
inductive ReplCmd where
  | flip
  | mirror
  | sign
  | k
  | representation
  | compression
  | step
  | skip
  | range
  deriving DecidableEq

/-- Each REPL handler validates its arguments (argument count and type,
via the validator macro of easy_repl and str::parse) before assigning to
the configuration; none on validation failure, the updated configuration
on success. -/
def applyCmdOpt (c : ReplCmd) (args : List String) (o : Opts) : Option Opts :=
  match c with
  | ReplCmd.flip =>
    match args with
    | [a] =>
      match parseU8 a with
      | some v => some { o with flip := v }
      | none => none
    | _ => none
  | ReplCmd.mirror =>
    match args with
    | [a] =>
      match parseU8 a with
      | some v => some { o with mirror := v }
      | none => none
    | _ => none
  | ReplCmd.sign =>
    match args with
    | [a] =>
      match parseU8 a with
      | some v => some { o with sign := v }
      | none => none
    | _ => none
  | ReplCmd.k =>
    match args with
    | [a] =>
      match parseU8 a with
      | some v => some { o with k := v }
      | none => none
    | _ => none
  | ReplCmd.representation =>
    match args with
    | [a] =>
      match parseRepresentation a with
      | some v => some { o with representation := v }
      | none => none
    | _ => none
  | ReplCmd.compression =>
    match args with
    | [a] =>
      match parseCompression a with
      | some v => some { o with compression := v }
      | none => none
    | _ => none
  | ReplCmd.step =>
    match args with
    | [a] =>
      match parseUsize a with
      | some v => some { o with step := v }
      | none => none
    | _ => none
  | ReplCmd.skip =>
    match args with
    | [a] =>
      match parseUsize a with
      | some v => some { o with skip := v }
      | none => none
    | _ => none
  | ReplCmd.range =>
    match args with
    | [a, b] =>
      match parseUsize a, parseUsize b with
      | some va, some vb => some { o with from_ := va, to_ := vb }
      | _, _ => none
    | _ => none

/-- A setter invocation: the Bool reports whether the handler succeeded,
and the Opts is the configuration afterwards (the prior one when the
handler rejected its input, since the handlers assign only after their
validator and parse succeed). -/
def applyCmd (c : ReplCmd) (args : List String) (o : Opts) : Bool × Opts :=
  match applyCmdOpt c args o with
  | some o2 => (true, o2)
  | none => (false, o)

/-! Concrete configurations used as test fixtures by the witnesses and
counterexamples below. -/

/-- Default configuration with representation OnesComplement. -/
def optOnes : Opts :=
  { Opts.default with representation := Representation.OnesComplement }

/-- Default configuration with representation ExcessK (bias 0). -/
def optEx : Opts :=
  { Opts.default with representation := Representation.ExcessK }

/-- Default configuration with representation ExcessK and bias 255
(compression stays DPCM0). -/
def optEx255 : Opts :=
  { Opts.default with representation := Representation.ExcessK, k := 255 }

/-- Default configuration with compression DPCM1. -/
def optDpcm1 : Opts :=
  { Opts.default with compression := Compression.DPCM1 }

/-- Default configuration with compression DPCMSDX. -/
def optSdx : Opts :=
  { Opts.default with compression := Compression.DPCMSDX }

/-- ExcessK with bias 0 and compression DPCMSDX. -/
def optExSdx : Opts :=
  { Opts.default with representation := Representation.ExcessK, compression := Compression.DPCMSDX }

/-- ExcessK with bias 100 and compression DPCMSDX. -/
def optEx100Sdx : Opts :=
  { Opts.default with representation := Representation.ExcessK, k := 100, compression := Compression.DPCMSDX }

/-- Default configuration with stride 2. -/
def optStep2 : Opts := { Opts.default with step := 2 }

/-! Helper lemmas bridging the bitwise operations of the source to
ordinary arithmetic, and basic facts about the wrap and saturation
maps. -/

set_option maxRecDepth 40000

lemma fin_and_127 : ∀ b : Fin 256, b.val &&& 127 = b.val % 128 := by decide

lemma fin_shr_7 : ∀ b : Fin 256, b.val >>> 7 = b.val / 128 := by decide

lemma fin_and_1 : ∀ b : Fin 256, b.val &&& 1 = b.val % 2 := by decide

lemma fin_xor_255 : ∀ b : Fin 256, b.val ^^^ 255 = 255 - b.val := by decide

lemma wrap16_eq_self {x : Int} (h1 : -32768 ≤ x) (h2 : x ≤ 32767) :
    wrap16 x = x := by
  unfold wrap16
  rw [Int.emod_eq_of_lt (by omega) (by omega)]
  omega

lemma sat16_bounds (x : Int) : -32768 ≤ sat16 x ∧ sat16 x ≤ 32767 := by
  unfold sat16
  split <;> [omega; split <;> omega]

lemma reconStep_sat_shape (opt : Opts) (d8 : Fin 256) (hist : List Int) :
    ∃ y, reconStep opt d8 hist = sat16 y := by
  cases hc : opt.compression <;>
    simp only [reconStep, hc, satAdd, satSub, satMul] <;>
    first
      | exact ⟨_, rfl⟩
      | (split <;> exact ⟨_, rfl⟩)

/-- Claim C6: under TwosComplement the decoded value is the byte
reinterpreted as signed 8-bit and widened to 16 bits, exactly: it lies in
the signed 8-bit range, is congruent to the byte modulo 256, and in
particular byte 128 decodes to -128 and byte 127 decodes to 127. -/
theorem c6_twos_complement_exact (opt : Opts) (b : Fin 256)
    (h : opt.representation = Representation.TwosComplement) :
    (-128 ≤ decodeOne opt b ∧ decodeOne opt b ≤ 127
      ∧ decodeOne opt b % 256 = (b.val : Int) % 256)
    ∧ decodeOne opt (128 : Fin 256) = -128
    ∧ decodeOne opt (127 : Fin 256) = 127 := by
  have hb := b.isLt
  refine ⟨?_, ?_, ?_⟩ <;> simp only [decodeOne, h]
  · unfold toI8
    split <;> omega
  · decide
  · decide

/-- Witness for claim C6 at a concrete configuration and byte. -/
theorem c6_twos_complement_exact_witness :
    Opts.default.representation = Representation.TwosComplement
    ∧ ((-128 ≤ decodeOne Opts.default 200 ∧ decodeOne Opts.default 200 ≤ 127
        ∧ decodeOne Opts.default 200 % 256 = (((200 : Fin 256)).val : Int) % 256)
      ∧ decodeOne Opts.default (128 : Fin 256) = -128
      ∧ decodeOne Opts.default (127 : Fin 256) = 127) :=
  ⟨rfl, c6_twos_complement_exact Opts.default 200 rfl⟩

/-- Claim C7: under OnesComplement a byte below 128 decodes to itself and
any other byte decodes to the negation of its unsigned bitwise NOT; both
0x00 and 0xFF decode to 0, 0x01 decodes to 1, 0xFE decodes to -1. -/
theorem c7_ones_complement_mapping (opt : Opts) (b : Fin 256)
    (h : opt.representation = Representation.OnesComplement) :
    (decodeOne opt b
      = if b.val < 128 then (b.val : Int) else -(255 - (b.val : Int)))
    ∧ decodeOne opt (0 : Fin 256) = 0
    ∧ decodeOne opt (255 : Fin 256) = 0
    ∧ decodeOne opt (1 : Fin 256) = 1
    ∧ decodeOne opt (254 : Fin 256) = -1 := by
  have hb := b.isLt
  refine ⟨?_, ?_, ?_, ?_, ?_⟩ <;> simp only [decodeOne, h]
  · rw [fin_xor_255 b]
    split
    · rfl
    · omega
  · decide
  · decide
  · decide
  · decide

/-- Witness for claim C7 at a concrete configuration and byte. -/
theorem c7_ones_complement_mapping_witness :
    optOnes.representation = Representation.OnesComplement
    ∧ ((decodeOne optOnes 200
        = if ((200 : Fin 256)).val < 128 then (((200 : Fin 256)).val : Int)
          else -(255 - (((200 : Fin 256)).val : Int)))
      ∧ decodeOne optOnes (0 : Fin 256) = 0
      ∧ decodeOne optOnes (255 : Fin 256) = 0
      ∧ decodeOne optOnes (1 : Fin 256) = 1
      ∧ decodeOne optOnes (254 : Fin 256) = -1) :=
  ⟨rfl, c7_ones_complement_mapping optOnes 200 rfl⟩

/-- Claim C10: under ExcessK the decoded value is the zero-extended byte
minus the bias as exact integer subtraction; it always lies in
[-255, 255], so the wraparound of the 16-bit subtraction is never
exercised, and bytes with the top bit set stay positive when the bias
allows. -/
theorem c10_excess_k_exact (opt : Opts) (b : Fin 256)
    (h : opt.representation = Representation.ExcessK) :
    decodeOne opt b = (b.val : Int) - (opt.k.val : Int)
    ∧ -255 ≤ decodeOne opt b ∧ decodeOne opt b ≤ 255 := by
  have hb := b.isLt
  have hk := opt.k.isLt
  have he : decodeOne opt b = (b.val : Int) - (opt.k.val : Int) := by
    simp only [decodeOne, h]
    exact wrap16_eq_self (by omega) (by omega)
  refine ⟨he, ?_, ?_⟩ <;> rw [he] <;> omega

/-- Witness for claim C10: byte 0xFF with bias 0 decodes to 255. -/
theorem c10_excess_k_exact_witness :
    optEx.representation = Representation.ExcessK
    ∧ (decodeOne optEx (255 : Fin 256)
        = (((255 : Fin 256)).val : Int) - ((optEx.k).val : Int)
      ∧ -255 ≤ decodeOne optEx (255 : Fin 256)
      ∧ decodeOne optEx (255 : Fin 256) ≤ 255) :=
  ⟨rfl, c10_excess_k_exact optEx 255 rfl⟩

/-- Claim C2 counterexample: with representation ExcessK, bias 255 and
compression DPCM0, byte 0 decodes to -255 and the emitted sample is the
saturated product -32768, not the wraparound product 256 the claim
requires. -/
theorem c2_dpcm0_wraparound_counterexample :
    reconStep optEx255 (0 : Fin 256) [] = -32768
    ∧ wrap16 (decodeOne optEx255 (0 : Fin 256) * 256) = 256
    ∧ reconStep optEx255 (0 : Fin 256) []
      ≠ wrap16 (decodeOne optEx255 (0 : Fin 256) * 256) := by
  decide

/-- Claim C2 as amended: in the DPCM0 (no compression) path the emitted
sample is the decoded value multiplied by 256 with saturating, not
wraparound, 16-bit multiplication. -/
theorem c2_dpcm0_saturating_scale (opt : Opts) (d8 : Fin 256) (hist : List Int)
    (h : opt.compression = Compression.DPCM0) :
    reconStep opt d8 hist = sat16 (decodeOne opt d8 * 256) := by
  simp only [reconStep, h, satMul]

/-- Witness for the amended claim C2 at a concrete configuration. -/
theorem c2_dpcm0_saturating_scale_witness :
    Opts.default.compression = Compression.DPCM0
    ∧ reconStep Opts.default (200 : Fin 256) [7]
      = sat16 (decodeOne Opts.default (200 : Fin 256) * 256) :=
  ⟨rfl, c2_dpcm0_saturating_scale Opts.default 200 [7] rfl⟩

/-- Claim C8: every argument-taking configuration setter leaves the
configuration unchanged whenever its argument fails validation; the
configuration is mutated only when validation succeeds. -/
theorem c8_setter_rejects_without_mutation (c : ReplCmd) (args : List String)
    (o : Opts) (h : (applyCmd c args o).1 = false) :
    (applyCmd c args o).2 = o := by
  cases happ : applyCmdOpt c args o with
  | none => simp only [applyCmd, happ]
  | some o2 =>
    simp only [applyCmd, happ] at h
    exact absurd h (by decide)

/-- Witness for claim C8: a malformed numeric argument to the k setter is
rejected and the default configuration is retained. -/
theorem c8_setter_rejects_without_mutation_witness :
    (applyCmd ReplCmd.k ["xy"] Opts.default).1 = false
    ∧ (applyCmd ReplCmd.k ["xy"] Opts.default).2 = Opts.default :=
  ⟨by decide,
    c8_setter_rejects_without_mutation ReplCmd.k ["xy"] Opts.default (by decide)⟩

/-- Claim C1 counterexample: with representation TwosComplement and
compression DPCM1, byte 255 decodes to residual -1, so the claim predicts
sample 0 + (-1) = -1 from an empty history; the code instead ignores the
configured representation, reads the raw byte as sign-magnitude and emits
0 - 127 = -127. -/
theorem c1_dpcm1_counterexample :
    reconStep optDpcm1 (255 : Fin 256) [] = -127
    ∧ satAdd (([] : List Int).headD 0) (decodeOne optDpcm1 (255 : Fin 256)) = -1
    ∧ reconStep optDpcm1 (255 : Fin 256) []
      ≠ satAdd (([] : List Int).headD 0) (decodeOne optDpcm1 (255 : Fin 256)) := by
  decide

/-- Claim C1 as amended: under DPCM1 the reconstructed sample is the
previous sample (0 when no prior sample exists) plus, with saturating
16-bit addition, the byte value left by the representation match (the
raw byte, except under Custom, where it is the mirror/flip folded byte)
decoded under the SignedMagnitude MSB interpretation — not the residual
produced by the configured representation. -/
theorem c1_dpcm1_residual (opt : Opts) (d8 : Fin 256) (hist : List Int)
    (h : opt.compression = Compression.DPCM1) :
    reconStep opt d8 hist
      = satAdd (hist.headD 0)
          (decodeOne
            { opt with representation := Representation.SignedMagnitude, sign := 1 }
            (foldByte opt d8)) := by
  have hsv : ((1 : Fin 256)).val = 1 := rfl
  simp only [reconStep, decodeOne, h, hsv]
  generalize foldByte opt d8 = e
  have hb := e.isLt
  rw [fin_shr_7 e, fin_and_127 e]
  by_cases hlt : e.val < 128
  · rw [if_pos hlt, if_neg (by omega : ¬ (1 : Nat) = 0),
      if_pos (by omega : e.val / 128 = 0), Nat.mod_eq_of_lt hlt]
  · rw [if_neg hlt, if_neg (by omega : ¬ (1 : Nat) = 0),
      if_neg (by omega : ¬ e.val / 128 = 0)]
    unfold satSub satAdd
    congr 1
    omega

/-- Witness for the amended claim C1 at a concrete configuration. -/
theorem c1_dpcm1_residual_witness :
    optDpcm1.compression = Compression.DPCM1
    ∧ reconStep optDpcm1 (200 : Fin 256) [100]
      = satAdd (([100] : List Int).headD 0)
          (decodeOne
            { optDpcm1 with representation := Representation.SignedMagnitude, sign := 1 }
            (foldByte optDpcm1 (200 : Fin 256))) :=
  ⟨rfl, c1_dpcm1_residual optDpcm1 200 [100] rfl⟩

/-- Claim C3 counterexample: the DPCMSDX branch computes its squared
delta with plain 16-bit multiplication, which wraps: with byte 255 the
code emits 1022 from an empty history, while a fully saturating variant
of the same step would emit -32767. -/
theorem c3_sdx_wrapping_counterexample :
    reconStep optSdx (255 : Fin 256) [] = 1022
    ∧ reconStepDpcmsdxSaturating (255 : Fin 256) [] = -32767
    ∧ reconStep optSdx (255 : Fin 256) []
      ≠ reconStepDpcmsdxSaturating (255 : Fin 256) [] := by
  decide

/-- Claim C3 as amended: the final arithmetic producing each sample is
saturating in every compression mode, so every emitted sample lies in the
signed 16-bit range; the intermediate squared-delta multiplication of
DPCMSDX, however, wraps rather than saturates. -/
theorem c3_sample_in_range (opt : Opts) (d8 : Fin 256) (hist : List Int) :
    -32768 ≤ reconStep opt d8 hist ∧ reconStep opt d8 hist ≤ 32767 := by
  obtain ⟨y, hy⟩ := reconStep_sat_shape opt d8 hist
  rw [hy]
  exact sat16_bounds y

/-- Claim C4 counterexample: byte 1 is odd (no history reset) and its
spec-claimed doubled squared delta is 2; under ExcessK bias 0 it decodes
to amplitude 1 and under ExcessK bias 100 to amplitude -99, so a step
that adds for one amplitude sign and subtracts for the other could not
emit the same sample from a zero history in both configurations, yet the
code emits -2 in both: the branch tests the zero-extended raw byte, which
is never negative, so the decoded amplitude is never consulted. -/
theorem c4_dpcmsdx_sign_counterexample :
    decodeOne optExSdx (1 : Fin 256) = 1
    ∧ decodeOne optEx100Sdx (1 : Fin 256) = -99
    ∧ reconStep optExSdx (1 : Fin 256) [] = -2
    ∧ reconStep optEx100Sdx (1 : Fin 256) [] = -2 := by
  decide

/-- Claim C4 as amended: under DPCMSDX the history is reset to 0 whenever
the byte value left by the representation match (the raw byte, except
under Custom, where it is the mirror/flip folded byte) is even, and the
doubled square of that zero-extended byte (computed with wrapping 16-bit
multiplication) is then always subtracted, with saturation, from the
possibly reset history; the sign of the decoded amplitude plays no role,
because the branch value is the zero-extended byte and is never
negative. -/
theorem c4_dpcmsdx_always_subtracts (opt : Opts) (d8 : Fin 256) (hist : List Int)
    (h : opt.compression = Compression.DPCMSDX) :
    reconStep opt d8 hist
      = sat16 ((if (foldByte opt d8).val % 2 = 0 then 0 else hist.headD 0)
          - wrap16 (wrap16 (((foldByte opt d8).val : Int)
              * ((foldByte opt d8).val : Int)) * 2)) := by
  simp only [reconStep, h, fin_and_1 (foldByte opt d8)]
  rw [if_neg (by omega : ¬ (((foldByte opt d8).val : Int) < 0))]
  rfl

/-- Witness for the amended claim C4 at a concrete configuration. -/
theorem c4_dpcmsdx_always_subtracts_witness :
    optSdx.compression = Compression.DPCMSDX
    ∧ reconStep optSdx (3 : Fin 256) [5]
      = sat16 ((if (foldByte optSdx (3 : Fin 256)).val % 2 = 0 then 0
            else (([5] : List Int)).headD 0)
          - wrap16 (wrap16 (((foldByte optSdx (3 : Fin 256)).val : Int)
              * ((foldByte optSdx (3 : Fin 256)).val : Int)) * 2)) :=
  ⟨rfl, c4_dpcmsdx_always_subtracts optSdx 3 [5] rfl⟩

lemma reconLoop_length (input : List (Fin 256)) (opt : Opts)
    (hs : 1 ≤ opt.step) :
    ∀ fuel ix acc, ix < input.length → input.length - ix ≤ fuel →
      (reconLoop input opt fuel ix acc).length
        = acc.length + (input.length - ix + opt.step - 1) / opt.step := by
  intro fuel
  induction fuel with
  | zero => intro ix acc h1 h2; exact absurd h1 (by omega)
  | succ f ih =>
    intro ix acc h1 h2
    by_cases hstop : input.length ≤ ix + opt.step
    · simp only [reconLoop, if_pos hstop, List.length_reverse, List.length_cons]
      have h3 : (input.length - ix + opt.step - 1) / opt.step = 1 := by
        have e : input.length - ix + opt.step - 1
            = (input.length - ix - 1) + opt.step := by omega
        rw [e, Nat.add_div_right _ (by omega), Nat.div_eq_of_lt (by omega)]
      rw [h3]
    · simp only [reconLoop, if_neg hstop]
      rw [ih (ix + opt.step) _ (by omega) (by omega)]
      simp only [List.length_cons]
      have e : input.length - ix + opt.step - 1
          = (input.length - (ix + opt.step) + opt.step - 1) + opt.step := by
        omega
      rw [e, Nat.add_div_right _ (by omega)]
      generalize (input.length - (ix + opt.step) + opt.step - 1) / opt.step = q
      omega

lemma reconLoop_indexes_lt (input : List (Fin 256)) (opt : Opts) :
    ∀ fuel ix acc, ix < input.length →
      ∀ p ∈ reconLoop input opt fuel ix acc, p ∈ acc ∨ p.1 < input.length := by
  intro fuel
  induction fuel with
  | zero =>
    intro ix acc h1 p hp
    simp only [reconLoop, List.mem_reverse] at hp
    exact Or.inl hp
  | succ f ih =>
    intro ix acc h1 p hp
    by_cases hstop : input.length ≤ ix + opt.step
    · simp only [reconLoop, if_pos hstop, List.mem_reverse, List.mem_cons] at hp
      rcases hp with h | h
      · right; rw [h]; exact h1
      · exact Or.inl h
    · simp only [reconLoop, if_neg hstop] at hp
      rcases ih (ix + opt.step) _ (by omega) p hp with h | h
      · rcases List.mem_cons.mp h with h2 | h2
        · right; rw [h2]; exact h1
        · exact Or.inl h2
      · exact Or.inr h

/-- Claim C5: a decode pass over a raw stream of length at least 1, with
stride at least 1 and start offset 0, emits exactly the ceiling of
length / stride samples, and every raw-stream index it reads is strictly
below the stream length. -/
theorem c5_truncation (input : List (Fin 256)) (opt : Opts)
    (h0 : opt.skip = 0) (hs : 1 ≤ opt.step) (hn : 1 ≤ input.length) :
    (decode input opt).length = (input.length + opt.step - 1) / opt.step
    ∧ ∀ p ∈ decode input opt, p.1 < input.length := by
  constructor
  · simp only [decode, h0]
    have h4 := reconLoop_length input opt hs input.length 0 [] (by omega) (by omega)
    simpa using h4
  · intro p hp
    simp only [decode, h0] at hp
    have h5 := reconLoop_indexes_lt input opt input.length 0 [] (by omega) p hp
    simpa using h5

/-- Witness for claim C5: a 3-byte stream decoded with stride 2 yields
ceil(3 / 2) = 2 samples, reading only indices 0 and 2. -/
theorem c5_truncation_witness :
    optStep2.skip = 0 ∧ 1 ≤ optStep2.step
    ∧ 1 ≤ ([1, 2, 3] : List (Fin 256)).length
    ∧ ((decode [1, 2, 3] optStep2).length
        = (([1, 2, 3] : List (Fin 256)).length + optStep2.step - 1) / optStep2.step
      ∧ ∀ p ∈ decode [1, 2, 3] optStep2, p.1 < ([1, 2, 3] : List (Fin 256)).length) :=
  ⟨rfl, by decide, by decide, c5_truncation [1, 2, 3] optStep2 rfl (by decide) (by decide)⟩

lemma cbRun_spec (lo hi : Nat) :
    ∀ n, (cbRun lo hi n).2.2.1 = n
      ∧ ((cbRun lo hi n).2.2.2 = true ↔ 0 < n ∧ hi ≤ lo + (n - 1) / 2)
      ∧ (cbRun lo hi n).2.1 = (if (cbRun lo hi n).2.2.2 = true then 1 else 0)
      ∧ ∀ i ∈ (cbRun lo hi n).1, i < hi := by
  intro n
  induction n with
  | zero =>
    refine ⟨rfl, ?_, rfl, ?_⟩ <;> simp [cbRun]
  | succ n ih =>
    obtain ⟨hf, hdone, hsig, hreads⟩ := ih
    simp only [cbRun, cbStep, hf]
    by_cases hlt : lo + n / 2 < hi
    · rw [if_pos hlt]
      refine ⟨rfl, ?_, ?_, ?_⟩
      · rw [hdone]
        constructor
        · rintro ⟨hn0, hle⟩
          exact ⟨by omega, by omega⟩
        · rintro ⟨hn0, hle⟩
          exact absurd hle (by omega)
      · rw [Nat.add_zero, hsig]
      · intro i hi2
        rcases List.mem_append.mp hi2 with h | h
        · exact hreads i h
        · simp only [Option.toList_some, List.mem_singleton] at h
          rw [h]; exact hlt
    · rw [if_neg hlt]
      cases hd : (cbRun lo hi n).2.2.2 with
      | false =>
        rw [if_pos rfl]
        refine ⟨rfl, ?_, ?_, ?_⟩
        · simp only [Nat.add_sub_cancel, true_iff, Prod.snd]
          exact ⟨by omega, by omega⟩
        · rw [hsig, hd]
          simp
        · intro i hi2
          rcases List.mem_append.mp hi2 with h | h
          · exact hreads i h
          · simp at h
      | true =>
        rw [if_neg (by decide)]
        obtain ⟨hn0, hle⟩ := hdone.mp hd
        refine ⟨rfl, ?_, ?_, ?_⟩
        · simp only [Nat.add_sub_cancel, true_iff, Prod.snd]
          exact ⟨by omega, by omega⟩
        · rw [hsig, hd]
          simp
        · intro i hi2
          rcases List.mem_append.mp hi2 with h | h
          · exact hreads i h
          · simp at h

/-- Claim C9: play clamps both window endpoints to the buffer length,
every buffer index the callback reads stays strictly below the clamped
end (which is at most the buffer length, so no out-of-bounds read), and
after any number of frames the completion signal count is exactly 1 once
the up-sampled index has reached the clamped window end and 0 before —
including when the requested end exceeds the buffer length or the
clamped window is empty. -/
theorem c9_playback_window (len a b n : Nat) :
    (clampWin len a b).2 ≤ len
    ∧ (∀ i ∈ (cbRun (clampWin len a b).1 (clampWin len a b).2 n).1,
        i < (clampWin len a b).2)
    ∧ (cbRun (clampWin len a b).1 (clampWin len a b).2 n).2.1
      = if 0 < n ∧ (clampWin len a b).2 ≤ (clampWin len a b).1 + (n - 1) / 2
        then 1 else 0 := by
  obtain ⟨hf, hdone, hsig, hreads⟩ :=
    cbRun_spec (clampWin len a b).1 (clampWin len a b).2 n
  refine ⟨Nat.min_le_right b len, hreads, ?_⟩
  rw [hsig]
  by_cases hc : 0 < n
      ∧ (clampWin len a b).2 ≤ (clampWin len a b).1 + (n - 1) / 2
  · rw [if_pos (hdone.mpr hc), if_pos hc]
  · rw [if_neg (fun h => hc (hdone.mp h)), if_neg hc]

end PcmExtract
